import Mathlib

/-!
Verification of the data-preparation core of `streamlit_dashboard.py`
(the `prepare_data` function): the Cleaner (whitespace normalization and
numeric coercion of the four count columns) and the Album Consolidator
(pipe-split sub-title frequency counting and canonical-title mapping).

The dataset is modelled shallowly: the `album_title` column as a
`List (Option String)` (one entry per row, `none` for a missing cell),
a full dataframe as a list of named columns of `Cell`s.  Library
functions used by the source (`str.strip`, `str.split('|')`,
`Series.unique`, `collections.Counter`, Python `max` with a key,
`pandas.to_numeric`, `astype('Int64', errors='ignore')`) are modelled
explicitly below, each at the behaviour the source relies on.
-/

namespace MusicDash

/-- Python whitespace characters as used by `str.strip()` and the regex
class `\s` for the ASCII range (space, tab, LF, CR, VT, FF). -/
def isPyWs (c : Char) : Bool :=
  c = ' ' || c = '\t' || c = '\n' || c = '\r' || c = '\x0b' || c = '\x0c'

/-- Model of Python `str.strip()` on the character list: drop leading and
trailing whitespace. -/
def stripChars (l : List Char) : List Char :=
  ((l.dropWhile isPyWs).reverse.dropWhile isPyWs).reverse

/-- `str.strip()` on a `String`. -/
def pyStrip (s : String) : String := String.mk (stripChars s.data)

/-- Helper for `splitPipe`: accumulates the current segment (reversed). -/
def splitPipeAux (cur : List Char) : List Char → List (List Char)
  | [] => [cur.reverse]
  | c :: cs =>
    if c = '|' then cur.reverse :: splitPipeAux [] cs
    else splitPipeAux (c :: cur) cs

/-- Model of Python `title.split('|')`: split on every pipe, keeping empty
segments (`"".split('|') = [""]`, `"A||B".split('|') = ["A","","B"]`). -/
def splitPipe (l : List Char) : List (List Char) := splitPipeAux [] l

/-- Lines 53-54 / 61-62 of the source: per-title valid sub-titles.
`parts = [part.strip() for part in title.split('|')]` followed by
`valid_parts = [part for part in parts if part]`. -/
def validParts (t : String) : List String :=
  ((splitPipe t.data).map (fun p => String.mk (stripChars p))).filter
    (fun p => p != "")

/-- Helper for `uniqueFirst`: keeps elements not yet seen, in order. -/
def uniqueAux (seen : List String) : List String → List String
  | [] => []
  | x :: xs =>
    if x ∈ seen then uniqueAux seen xs else x :: uniqueAux (x :: seen) xs

/-- Model of `pandas.Series.unique()`: distinct values in order of first
occurrence. -/
def uniqueFirst (l : List String) : List String := uniqueAux [] l

/-- Line 48 + `.unique()` calls on lines 52/60: the distinct non-null
album titles of the column (`df['album_title'].dropna()` then unique). -/
def distinctTitles (col : List (Option String)) : List String :=
  uniqueFirst (col.filterMap id)

/-- Lines 51-55: `all_sub_contents`, the concatenation of every distinct
title's valid parts (the loop `all_sub_contents.extend(valid_parts)`). -/
def allSubContents (titles : List String) : List String :=
  titles.foldr (fun t acc => validParts t ++ acc) []

/-- Line 56: `Counter(all_sub_contents)` read at one key. -/
def subCounts (titles : List String) (s : String) : Nat :=
  (allSubContents titles).count s

/-- Model of Python `max(best :: rest, key=f)`: the accumulator is
replaced only on a strictly larger key, so the first maximizer wins. -/
def pyMaxKey (f : String → Nat) (best : String) : List String → String
  | [] => best
  | y :: ys => pyMaxKey f (if f best < f y then y else best) ys

/-- Lines 61-68: the canonical choice for one distinct title, given the
global counter: `max(valid_sub_contents, key=...)` when the valid parts
are non-empty, the original title otherwise. -/
def consolidateTitle (cnt : String → Nat) (t : String) : String :=
  match validParts t with
  | [] => t
  | p :: ps => pyMaxKey cnt p ps

/-- Lines 59-69: the `title_mapping` dict, as an association list keyed
by the distinct titles in order. -/
def titleMapping (titles : List String) : List (String × String) :=
  titles.map (fun t => (t, consolidateTitle (subCounts titles) t))

/-- Python dict lookup on the association list. -/
def dictGet (m : List (String × String)) (k : String) : Option String :=
  (m.find? (fun p => p.1 == k)).map (fun p => p.2)

/-- The global frequency table of the consolidator, as computed from the
album column (lines 48-56). -/
def albumCounter (col : List (Option String)) (s : String) : Nat :=
  subCounts (distinctTitles col) s

/-- The `title_mapping` built from the album column (lines 48-69). -/
def albumMapping (col : List (Option String)) : List (String × String) :=
  titleMapping (distinctTitles col)

/-- Line 72: `df['album_title'].map(title_mapping)` — each non-null cell
is looked up in the dict (missing when absent), null cells stay null. -/
def consolidatedColumn (col : List (Option String)) : List (Option String) :=
  col.map (fun o => o.bind (dictGet (albumMapping col)))

/-- A dataframe cell.  `str` models an object-dtype string cell, `int` a
nullable-Int64 cell, `rat` a float cell (floats carry exact decimal
values in every case the source exercises, so they are modelled by
rationals), `missing` the NaN/NA marker. -/
inductive Cell where
  | missing : Cell
  | str : String → Cell
  | int : Int → Cell
  | rat : Rat → Cell
deriving DecidableEq, Repr

/-- A dataframe: named columns of cells. -/
abbrev Df := List (String × List Cell)

/-- The regex `^\s*$` of line 33: the whole value is whitespace. -/
def isBlankStr (s : String) : Bool := s.data.all isPyWs

/-- One cell under `df.replace(r'^\s*$', np.nan, regex=True)`: a
whitespace-only string becomes NaN, everything else is untouched (the
regex replacement only applies to string values). -/
def cleanCell : Cell → Cell
  | Cell.str s => if isBlankStr s then Cell.missing else Cell.str s
  | c => c

/-- Blank test on a cell (only a string cell can be blank). -/
def isBlankCell : Cell → Bool
  | Cell.str s => isBlankStr s
  | _ => false

/-- Digit-string value, most significant first. -/
def digitsVal (l : List Char) : Nat :=
  l.foldl (fun n c => 10 * n + (c.toNat - 48)) 0

/-- Modelled fragment of `pandas.to_numeric(..., errors='coerce')` on a
single string: optional surrounding whitespace, optional sign, decimal
digits with an optional single fractional part; anything else (for
example `"1,234"` or non-numeric text) fails to `none`.  Exponents and
inf/nan literals are outside the fragment the claims exercise. -/
def parseNum (s : String) : Option Rat :=
  let t := stripChars s.data
  let su : Bool × List Char :=
    match t with
    | '-' :: r => (true, r)
    | '+' :: r => (false, r)
    | r => (false, r)
  let ip := su.2.takeWhile Char.isDigit
  let rest := su.2.dropWhile Char.isDigit
  match rest with
  | [] =>
    if ip.isEmpty then none
    else some (mkRat ((if su.1 then (-1 : Int) else 1) * (digitsVal ip : Int)) 1)
  | '.' :: fr =>
    if fr.all Char.isDigit && !(ip.isEmpty && fr.isEmpty) then
      some (mkRat
        ((if su.1 then (-1 : Int) else 1)
          * ((digitsVal ip : Int) * (10 : Int) ^ fr.length + (digitsVal fr : Int)))
        ((10 : Nat) ^ fr.length))
    else none
  | _ => none

/-- `to_numeric(errors='coerce')` on one cell: numbers pass through,
strings are parsed, NaN stays missing. -/
def toNumericCell : Cell → Option Rat
  | Cell.missing => none
  | Cell.str s => parseNum s
  | Cell.int n => some (mkRat n 1)
  | Cell.rat q => some q

/-- Whether one parsed value is representable in Int64 (integral). -/
def intOk (o : Option Rat) : Bool := o.elim true (fun q => q.den == 1)

/-- Lines 43-44 on one column: `pd.to_numeric(df[col], errors='coerce')`
then `.astype('Int64', errors='ignore')`.  The `astype` succeeds (giving
a nullable integer column) exactly when every parsed value is integral;
otherwise it raises, the error is ignored, and the parsed float column
is kept. -/
def coerceCol (col : List Cell) : List Cell :=
  if (col.map toNumericCell).all intOk then
    (col.map toNumericCell).map (fun o => o.elim Cell.missing (fun q => Cell.int q.num))
  else
    (col.map toNumericCell).map (fun o => o.elim Cell.missing Cell.rat)

/-- Line 41: the four designated count columns. -/
def countCols : List String := ["viewCount", "likeCount", "commentCount", "popularity"]

/-- Lines 41-44: coerce each count column that is present. -/
def coerceCounts (df : Df) : Df :=
  df.map (fun p => if p.1 ∈ countCols then (p.1, coerceCol p.2) else p)

/-- `df.empty` (line 29): no columns, or every column has no rows. -/
def dfIsEmpty (df : Df) : Bool := df.isEmpty || df.all (fun p => p.2.isEmpty)

/-- Line 33: the dataset-wide whitespace-to-NaN replacement. -/
def replaceBlank (df : Df) : Df := df.map (fun p => (p.1, p.2.map cleanCell))

/-- Lines 36-38: the per-column replacement, applied to a named column
when present. -/
def replaceBlankCol (df : Df) (name : String) : Df :=
  df.map (fun p => if p.1 = name then (p.1, p.2.map cleanCell) else p)

/-- The Cleaner, lines 29-44 of `prepare_data`: empty-dataset guard,
dataset-wide blank replacement, the redundant per-column replacement of
`combined_key` and `album_title`, then numeric coercion of the count
columns. -/
def cleaner (df : Df) : Df :=
  if dfIsEmpty df then df
  else
    coerceCounts (replaceBlankCol (replaceBlankCol (replaceBlank df) "combined_key") "album_title")

/-- Column lookup, `'album_title' in df.columns` plus access. -/
def getCol (df : Df) (name : String) : Option (List Cell) :=
  (df.find? (fun p => p.1 == name)).map (fun p => p.2)

/-- `.astype(str)` on one cell of the album column (line 48); non-null
numeric cells get a decimal representation standing in for Python
`str()` (no claim depends on the spelling for `rat` cells). -/
def cellAsStr : Cell → Option String
  | Cell.missing => none
  | Cell.str s => some s
  | Cell.int n => some (toString n)
  | Cell.rat q => some (toString q)

/-- Column assignment `df[name] = col`: overwrite when present, append
otherwise. -/
def setCol (df : Df) (name : String) (col : List Cell) : Df :=
  if df.any (fun p => p.1 == name) then
    df.map (fun p => if p.1 == name then (p.1, col) else p)
  else df ++ [(name, col)]

/-- The whole of `prepare_data` (lines 27-75): the Cleaner followed by
the Album Consolidator, which attaches `consolidated_album_title` when
an `album_title` column is present. -/
def prepareData (df : Df) : Df :=
  if dfIsEmpty df then df
  else
    let dfc := cleaner df
    match getCol dfc "album_title" with
    | none => dfc
    | some col =>
      let albums := col.map cellAsStr
      setCol dfc "consolidated_album_title"
        ((consolidatedColumn albums).map (fun o => o.elim Cell.missing Cell.str))

/-- The Cleaner in the single-pass form the spec describes: one blank
replacement over every column, coercion on the count columns. -/
def cleanedForm (df : Df) : Df :=
  df.map (fun p => (p.1,
    if p.1 ∈ countCols then coerceCol (p.2.map cleanCell) else p.2.map cleanCell))

/-- The claimed nullable-integer column shape: every cell missing or an
integer. -/
def isNullIntCell : Cell → Bool
  | Cell.missing => true
  | Cell.int _ => true
  | _ => false

/-! ## List-level helper lemmas -/

lemma allSubContents_cons (t : String) (ts : List String) :
    allSubContents (t :: ts) = validParts t ++ allSubContents ts := rfl

lemma count_allSubContents (titles : List String) (s : String) :
    (allSubContents titles).count s
      = (titles.map (fun t => (validParts t).count s)).sum := by
  induction titles with
  | nil => rfl
  | cons t ts ih =>
    rw [allSubContents_cons, List.count_append, List.map_cons, List.sum_cons, ih]

lemma mem_uniqueAux (seen l : List String) (a : String) :
    a ∈ uniqueAux seen l ↔ a ∈ l ∧ a ∉ seen := by
  induction l generalizing seen with
  | nil => simp [uniqueAux]
  | cons x xs ih =>
    simp only [uniqueAux]
    by_cases hx : x ∈ seen
    · rw [if_pos hx, ih]
      simp only [List.mem_cons]
      constructor
      · rintro ⟨h1, h2⟩
        exact ⟨Or.inr h1, h2⟩
      · rintro ⟨h1 | h1, h2⟩
        · exact absurd (h1 ▸ hx) h2
        · exact ⟨h1, h2⟩
    · rw [if_neg hx]
      simp only [List.mem_cons, ih, List.mem_cons]
      constructor
      · rintro (rfl | ⟨h1, h2⟩)
        · exact ⟨Or.inl rfl, hx⟩
        · exact ⟨Or.inr h1, fun hy => h2 (Or.inr hy)⟩
      · rintro ⟨h1 | h1, h2⟩
        · exact Or.inl h1
        · by_cases hax : a = x
          · exact Or.inl hax
          · exact Or.inr ⟨h1, fun hy => (by
              rcases hy with hy | hy
              · exact hax hy
              · exact h2 hy)⟩

lemma nodup_uniqueAux (seen l : List String) : (uniqueAux seen l).Nodup := by
  induction l generalizing seen with
  | nil => simp [uniqueAux]
  | cons x xs ih =>
    simp only [uniqueAux]
    split
    · exact ih seen
    · refine List.nodup_cons.mpr ⟨?_, ih (x :: seen)⟩
      intro hmem
      rw [mem_uniqueAux] at hmem
      exact hmem.2 (List.mem_cons_self x seen)

lemma uniqueAux_all_seen (seen l : List String) (h : ∀ x ∈ l, x ∈ seen) :
    uniqueAux seen l = [] := by
  induction l with
  | nil => rfl
  | cons x xs ih =>
    simp only [uniqueAux, if_pos (h x (List.mem_cons_self x xs))]
    exact ih fun y hy => h y (List.mem_cons_of_mem x hy)

lemma uniqueAux_append_absorb (l extra : List String) :
    ∀ seen, (∀ x ∈ extra, x ∈ l ∨ x ∈ seen) →
      uniqueAux seen (l ++ extra) = uniqueAux seen l := by
  induction l with
  | nil =>
    intro seen h
    simp only [List.nil_append, uniqueAux]
    exact uniqueAux_all_seen seen extra fun x hx => (h x hx).resolve_left (by simp)
  | cons y ys ih =>
    intro seen h
    simp only [List.cons_append, uniqueAux]
    by_cases hy : y ∈ seen
    · rw [if_pos hy, if_pos hy]
      refine ih seen fun x hx => ?_
      rcases h x hx with hc | hc
      · rcases List.mem_cons.mp hc with rfl | hc
        · exact Or.inr hy
        · exact Or.inl hc
      · exact Or.inr hc
    · rw [if_neg hy, if_neg hy]
      congr 1
      refine ih (y :: seen) fun x hx => ?_
      rcases h x hx with hc | hc
      · rcases List.mem_cons.mp hc with rfl | hc
        · exact Or.inr (List.mem_cons_self x seen)
        · exact Or.inl hc
      · exact Or.inr (List.mem_cons_of_mem y hc)

lemma mem_uniqueFirst (l : List String) (a : String) :
    a ∈ uniqueFirst l ↔ a ∈ l := by
  rw [uniqueFirst, mem_uniqueAux]
  simp

lemma nodup_distinctTitles (col : List (Option String)) :
    (distinctTitles col).Nodup := nodup_uniqueAux [] _

lemma mem_distinctTitles (col : List (Option String)) (a : String) :
    a ∈ distinctTitles col ↔ some a ∈ col := by
  rw [distinctTitles, mem_uniqueFirst]
  simp only [List.mem_filterMap, id_eq]
  constructor
  · rintro ⟨o, ho, rfl⟩
    exact ho
  · intro h
    exact ⟨some a, h, rfl⟩

lemma distinctTitles_append_absorb (col extra : List (Option String))
    (h : ∀ x ∈ extra, x = none ∨ x ∈ col) :
    distinctTitles (col ++ extra) = distinctTitles col := by
  unfold distinctTitles uniqueFirst
  rw [List.filterMap_append]
  refine uniqueAux_append_absorb _ _ [] fun x hx => ?_
  left
  simp only [List.mem_filterMap, id_eq] at hx ⊢
  obtain ⟨o, ho, heq⟩ := hx
  rcases h o ho with rfl | hc
  · simp at heq
  · exact ⟨o, hc, heq⟩

/-! ## Properties of the first-maximizer selection (`max` with key) -/

lemma pyMaxKey_mem (f : String → Nat) (x : String) (xs : List String) :
    pyMaxKey f x xs ∈ x :: xs := by
  induction xs generalizing x with
  | nil => simp [pyMaxKey]
  | cons y ys ih =>
    simp only [pyMaxKey]
    by_cases hxy : f x < f y
    · rw [show (if f x < f y then y else x) = y from if_pos hxy]
      rcases List.mem_cons.mp (ih y) with h | h
      · simp [h]
      · simp [List.mem_cons_of_mem, h]
    · rw [show (if f x < f y then y else x) = x from if_neg hxy]
      rcases List.mem_cons.mp (ih x) with h | h
      · simp [h]
      · simp [List.mem_cons_of_mem, h]

lemma pyMaxKey_le (f : String → Nat) (x : String) (xs : List String) :
    ∀ z ∈ x :: xs, f z ≤ f (pyMaxKey f x xs) := by
  induction xs generalizing x with
  | nil =>
    intro z hz
    rcases List.mem_cons.mp hz with rfl | h
    · simp [pyMaxKey]
    · simp at h
  | cons y ys ih =>
    intro z hz
    simp only [pyMaxKey]
    have hx : f x ≤ f (if f x < f y then y else x) := by
      split <;> omega
    have hy : f y ≤ f (if f x < f y then y else x) := by
      split <;> omega
    have hacc := ih (if f x < f y then y else x)
    rcases List.mem_cons.mp hz with rfl | hz'
    · exact le_trans hx (hacc _ (List.mem_cons_self _ _))
    · rcases List.mem_cons.mp hz' with rfl | hz''
      · exact le_trans hy (hacc _ (List.mem_cons_self _ _))
      · exact hacc z (List.mem_cons_of_mem _ hz'')

lemma find?_congr_mem {p q : String → Bool} (l : List String)
    (h : ∀ a ∈ l, p a = q a) : l.find? p = l.find? q := by
  induction l with
  | nil => rfl
  | cons x xs ih =>
    have hx := h x (List.mem_cons_self x xs)
    simp only [List.find?]
    rw [← hx]
    cases hpx : p x
    · exact ih fun a ha => h a (List.mem_cons_of_mem x ha)
    · rfl

lemma pyMaxKey_first (f : String → Nat) (x : String) (xs : List String) :
    (x :: xs).find? (fun a => decide (f (pyMaxKey f x xs) ≤ f a))
      = some (pyMaxKey f x xs) := by
  induction xs generalizing x with
  | nil => simp [pyMaxKey]
  | cons y ys ih =>
    simp only [pyMaxKey]
    split
    next hxy =>
      have hyb : f y ≤ f (pyMaxKey f y ys) :=
        pyMaxKey_le f y ys y (List.mem_cons_self y ys)
      have hfx : ¬ (f (pyMaxKey f y ys) ≤ f x) := by omega
      rw [List.find?_cons_of_neg _ (by simpa using hfx)]
      simpa only [pyMaxKey] using ih y
    next hxy =>
      have hIH := ih x
      by_cases hpx : f (pyMaxKey f x ys) ≤ f x
      · rw [List.find?_cons_of_pos _ (by simpa using hpx)]
        rw [List.find?_cons_of_pos _ (by simpa using hpx)] at hIH
        exact hIH
      · rw [List.find?_cons_of_neg _ (by simpa using hpx)] at hIH
        rw [List.find?_cons_of_neg _ (by simpa using hpx)]
        have hpy : ¬ (f (pyMaxKey f x ys) ≤ f y) := by omega
        rw [List.find?_cons_of_neg _ (by simpa using hpy)]
        exact hIH

lemma pyMaxKey_first_all (f : String → Nat) (x : String) (xs : List String) :
    (x :: xs).find? (fun a => (x :: xs).all (fun y => decide (f y ≤ f a)))
      = some (pyMaxKey f x xs) := by
  rw [← pyMaxKey_first f x xs]
  refine find?_congr_mem _ fun a ha => ?_
  rw [Bool.eq_iff_iff]
  simp only [List.all_eq_true, decide_eq_true_eq]
  constructor
  · intro h
    exact h _ (pyMaxKey_mem f x xs)
  · intro h z hz
    exact le_trans (pyMaxKey_le f x xs z hz) h

/-! ## Properties of the title-mapping dict -/

lemma dictGet_mapList (g : String → String) (titles : List String) (t : String)
    (h : t ∈ titles) :
    dictGet (titles.map (fun x => (x, g x))) t = some (g t) := by
  induction titles with
  | nil => simp at h
  | cons y ys ih =>
    simp only [List.map_cons, dictGet, List.find?]
    by_cases hyt : y = t
    · subst hyt
      simp
    · rw [show ((y, g y).1 == t) = false by simpa using hyt]
      rcases List.mem_cons.mp h with rfl | h'
      · exact absurd rfl hyt
      · simpa [dictGet] using ih h'

lemma dictGet_mapList_notMem (g : String → String) (titles : List String)
    (t : String) (h : t ∉ titles) :
    dictGet (titles.map (fun x => (x, g x))) t = none := by
  induction titles with
  | nil => rfl
  | cons y ys ih =>
    simp only [List.map_cons, dictGet, List.find?]
    have hyt : y ≠ t := fun hc => h (hc ▸ List.mem_cons_self y ys)
    rw [show ((y, g y).1 == t) = false by simpa using hyt]
    exact ih fun hc => h (List.mem_cons_of_mem y hc)

lemma countKeys (g : String → String) (titles : List String) (t : String) :
    (titles.map (fun x => (x, g x))).countP (fun p => p.1 == t)
      = titles.count t := by
  induction titles with
  | nil => rfl
  | cons y ys ih =>
    simp only [List.map_cons, List.countP_cons, List.count_cons, ih]

/-! ## The frequency table and mapping depend only on the distinct-title set -/

lemma subCounts_perm (t1 t2 : List String) (h : t1.Perm t2) (s : String) :
    subCounts t1 s = subCounts t2 s := by
  rw [subCounts, subCounts, count_allSubContents, count_allSubContents]
  exact List.Perm.sum_eq (h.map _)

lemma albumMapping_deterministic (col col' : List (Option String))
    (hset : ∀ x : String, x ∈ distinctTitles col ↔ x ∈ distinctTitles col')
    (t : String) :
    dictGet (albumMapping col) t = dictGet (albumMapping col') t := by
  have hperm : (distinctTitles col).Perm (distinctTitles col') :=
    (List.perm_ext_iff_of_nodup (nodup_distinctTitles col)
      (nodup_distinctTitles col')).mpr hset
  have hcnt : subCounts (distinctTitles col) = subCounts (distinctTitles col') :=
    funext fun s => subCounts_perm _ _ hperm s
  by_cases ht : t ∈ distinctTitles col
  · have h1 := dictGet_mapList (consolidateTitle (subCounts (distinctTitles col)))
      (distinctTitles col) t ht
    have h2 := dictGet_mapList (consolidateTitle (subCounts (distinctTitles col')))
      (distinctTitles col') t ((hset t).mp ht)
    exact h1.trans (by rw [hcnt]; exact h2.symm)
  · have h1 := dictGet_mapList_notMem
      (consolidateTitle (subCounts (distinctTitles col))) (distinctTitles col) t ht
    have h2 := dictGet_mapList_notMem
      (consolidateTitle (subCounts (distinctTitles col'))) (distinctTitles col') t
      (fun hc => ht ((hset t).mpr hc))
    exact h1.trans h2.symm

/-! ## Cleaner helper lemmas -/

lemma cleanCell_idem (c : Cell) : cleanCell (cleanCell c) = cleanCell c := by
  cases c with
  | str s =>
    by_cases h : isBlankStr s = true
    · simp [cleanCell, h]
    · simp [cleanCell, h]
  | missing => rfl
  | int n => rfl
  | rat q => rfl

lemma cleanCell_eq_blankForm (c : Cell) :
    cleanCell c = if isBlankCell c then Cell.missing else c := by
  cases c <;> rfl

lemma map_cleanCell_idem (l : List Cell) :
    (l.map cleanCell).map cleanCell = l.map cleanCell := by
  induction l with
  | nil => rfl
  | cons c cs ih => simp only [List.map_cons, cleanCell_idem, ih]

lemma coerceCol_eq (l : List Cell) :
    coerceCol l = if (l.map toNumericCell).all intOk
      then (l.map toNumericCell).map
        (fun o => o.elim Cell.missing (fun q => Cell.int q.num))
      else (l.map toNumericCell).map (fun o => o.elim Cell.missing Cell.rat) := rfl

lemma toNumericCell_intCell (o : Option Rat) (h : intOk o = true) :
    toNumericCell (o.elim Cell.missing (fun q => Cell.int q.num)) = o := by
  cases o with
  | none => rfl
  | some q =>
    simp only [intOk, Option.elim, beq_iff_eq] at h
    simp only [Option.elim, toNumericCell]
    rw [← h]
    exact congrArg some (Rat.mkRat_self q)

lemma toNumericCell_ratCell (o : Option Rat) :
    toNumericCell (o.elim Cell.missing Cell.rat) = o := by
  cases o <;> rfl

lemma map_comp_intCell (l : List (Option Rat)) (h : l.all intOk = true) :
    l.map (fun o => toNumericCell (o.elim Cell.missing (fun q => Cell.int q.num))) = l := by
  induction l with
  | nil => rfl
  | cons o os ih =>
    simp only [List.all_cons, Bool.and_eq_true] at h
    simp only [List.map_cons, toNumericCell_intCell o h.1, ih h.2]

lemma map_comp_ratCell (l : List (Option Rat)) :
    l.map (fun o => toNumericCell (o.elim Cell.missing Cell.rat)) = l := by
  induction l with
  | nil => rfl
  | cons o os ih => rw [List.map_cons, toNumericCell_ratCell o, ih]

lemma map_toNumeric_coerceCol (col : List Cell) :
    (coerceCol col).map toNumericCell = col.map toNumericCell := by
  rw [coerceCol_eq]
  split
  next h => rw [List.map_map]; exact map_comp_intCell _ h
  next h => rw [List.map_map]; exact map_comp_ratCell _

lemma coerceCol_idem (col : List Cell) :
    coerceCol (coerceCol col) = coerceCol col := by
  rw [coerceCol_eq (coerceCol col), map_toNumeric_coerceCol col, ← coerceCol_eq col]

lemma map_cleanCell_coerceCol (col : List Cell) :
    (coerceCol col).map cleanCell = coerceCol col := by
  rw [coerceCol_eq]
  split
  · rw [List.map_map]
    have hc : cleanCell ∘ (fun o : Option Rat =>
        o.elim Cell.missing (fun q => Cell.int q.num))
          = fun o => o.elim Cell.missing (fun q => Cell.int q.num) :=
      funext fun o => by cases o <;> rfl
    rw [hc]
  · rw [List.map_map]
    have hc : cleanCell ∘ (fun o : Option Rat => o.elim Cell.missing Cell.rat)
        = fun o => o.elim Cell.missing Cell.rat :=
      funext fun o => by cases o <;> rfl
    rw [hc]

lemma coerceCol_length (col : List Cell) :
    (coerceCol col).length = col.length := by
  rw [coerceCol_eq]
  split <;> simp

lemma cleaner_eq_cleanedForm (df : Df) (h : dfIsEmpty df = false) :
    cleaner df = cleanedForm df := by
  unfold cleaner
  rw [if_neg (by simp [h])]
  unfold coerceCounts replaceBlankCol replaceBlank cleanedForm
  rw [List.map_map, List.map_map, List.map_map]
  refine List.map_congr_left fun p _ => ?_
  obtain ⟨n, c⟩ := p
  by_cases h2 : n = "combined_key"
  · subst h2
    simp [countCols]
    exact fun a _ => cleanCell_idem a
  · by_cases h3 : n = "album_title"
    · subst h3
      simp [countCols]
      exact fun a _ => cleanCell_idem a
    · simp only [Function.comp_apply, if_neg h2, if_neg h3]
      split <;> rfl

lemma isEmpty_eq_of_length {α β : Type} (l1 : List α) (l2 : List β)
    (h : l1.length = l2.length) : l1.isEmpty = l2.isEmpty := by
  cases l1 <;> cases l2 <;> simp_all

lemma isEmpty_col_cleanedForm (q : String × List Cell) :
    (if q.1 ∈ countCols then coerceCol (q.2.map cleanCell)
      else q.2.map cleanCell).isEmpty = q.2.isEmpty := by
  split
  · exact isEmpty_eq_of_length _ _ (by rw [coerceCol_length, List.length_map])
  · exact isEmpty_eq_of_length _ _ (by rw [List.length_map])

lemma all_isEmpty_cleanedForm (df : Df) :
    (cleanedForm df).all (fun q => q.2.isEmpty) = df.all (fun q => q.2.isEmpty) := by
  induction df with
  | nil => rfl
  | cons p ps ih =>
    simp only [cleanedForm, List.map_cons, List.all_cons] at *
    rw [ih, isEmpty_col_cleanedForm p]

lemma dfIsEmpty_cleanedForm (df : Df) :
    dfIsEmpty (cleanedForm df) = dfIsEmpty df := by
  unfold dfIsEmpty
  rw [all_isEmpty_cleanedForm]
  congr 1
  exact isEmpty_eq_of_length _ _ (by simp [cleanedForm])

lemma cleanedForm_idem (df : Df) :
    cleanedForm (cleanedForm df) = cleanedForm df := by
  unfold cleanedForm
  rw [List.map_map]
  refine List.map_congr_left fun p _ => ?_
  obtain ⟨n, c⟩ := p
  simp only [Function.comp]
  by_cases hn : n ∈ countCols
  · simp only [if_pos hn, map_cleanCell_coerceCol, coerceCol_idem]
  · simp only [if_neg hn, map_cleanCell_idem]

/-! ## Remaining consolidator helper lemmas -/

lemma dictGet_albumMapping_mem (col : List (Option String)) (t : String)
    (ht : t ∈ distinctTitles col) :
    dictGet (albumMapping col) t = some (consolidateTitle (albumCounter col) t) :=
  dictGet_mapList (consolidateTitle (albumCounter col)) (distinctTitles col) t ht

lemma splitPipeAux_no_pipe (l : List Char) :
    ∀ cur, '|' ∉ l → splitPipeAux cur l = [cur.reverse ++ l] := by
  induction l with
  | nil => intro cur _; simp [splitPipeAux]
  | cons c cs ih =>
    intro cur h
    have hc : ¬ c = '|' := fun hc => h (hc ▸ List.mem_cons_self c cs)
    simp only [splitPipeAux, if_neg hc]
    rw [ih (c :: cur) (fun hm => h (List.mem_cons_of_mem c hm))]
    simp

lemma validParts_no_pipe (t : String) (hp : '|' ∉ t.data) :
    validParts t = if pyStrip t = "" then [] else [pyStrip t] := by
  unfold validParts splitPipe
  rw [splitPipeAux_no_pipe t.data [] hp]
  simp only [List.reverse_nil, List.nil_append, List.map_cons, List.map_nil]
  rw [show String.mk (stripChars t.data) = pyStrip t from rfl]
  by_cases h : pyStrip t = ""
  · rw [if_pos h, List.filter_cons, if_neg (by simp [h])]
    rfl
  · rw [if_neg h, List.filter_cons, if_pos (by simp [h])]
    rfl

/-! ## The claims -/

/-- Claim C1: for every distinct non-missing album title with at least one
valid sub-title, the canonical consolidated title is the sub-title with
the highest global frequency count, ties broken by the first sub-title in
the title's own pipe-split order attaining the maximum; a title with zero
valid sub-titles keeps its original string. -/
theorem c1_canonical_choice (col : List (Option String)) (t : String)
    (ht : t ∈ distinctTitles col) :
    (validParts t = [] → dictGet (albumMapping col) t = some t)
    ∧ (validParts t ≠ [] → ∃ r, dictGet (albumMapping col) t = some r
        ∧ (validParts t).find? (fun x => (validParts t).all
            (fun y => decide (albumCounter col y ≤ albumCounter col x))) = some r) := by
  have hget := dictGet_albumMapping_mem col t ht
  constructor
  · intro h0
    rw [hget]
    unfold consolidateTitle
    rw [h0]
  · intro hne
    obtain ⟨p, ps, hps⟩ := List.exists_cons_of_ne_nil hne
    refine ⟨pyMaxKey (albumCounter col) p ps, ?_, ?_⟩
    · rw [hget]
      unfold consolidateTitle
      rw [hps]
    · rw [hps]
      exact pyMaxKey_first_all (albumCounter col) p ps

/-- Witness for C1 at a concrete input. -/
theorem c1_canonical_choice_witness :
    (validParts "A|B" = [] →
      dictGet (albumMapping [some "A|B"]) "A|B" = some "A|B")
    ∧ (validParts "A|B" ≠ [] → ∃ r,
        dictGet (albumMapping [some "A|B"]) "A|B" = some r
        ∧ (validParts "A|B").find? (fun x => (validParts "A|B").all
            (fun y => decide (albumCounter [some "A|B"] y
              ≤ albumCounter [some "A|B"] x))) = some r) :=
  c1_canonical_choice [some "A|B"] "A|B" (by decide)

/-- Claim C2 fails on the code: a title whose pipe-split repeats a
sub-title increments that sub-title's count once per occurrence, not once
per distinct title.  With the single distinct title "B|B", exactly one
distinct title contains the sub-title "B", yet its count is 2. -/
theorem c2_counterexample :
    albumCounter [some "B|B"] "B" = 2
    ∧ (distinctTitles [some "B|B"]).countP
        (fun t => (validParts t).contains "B") = 1 := by decide

/-- Claim C2, amended: the frequency table maps each sub-title to the
total number of occurrences of that sub-title across the valid pipe-split
parts of the distinct non-null album titles (one increment per occurrence
within each distinct title); row multiplicities contribute nothing. -/
theorem c2_frequency_amended (col : List (Option String)) (s : String) :
    albumCounter col s
      = ((distinctTitles col).map (fun t => (validParts t).count s)).sum
    ∧ albumCounter (col ++ col) s = albumCounter col s := by
  constructor
  · exact count_allSubContents (distinctTitles col) s
  · unfold albumCounter
    rw [distinctTitles_append_absorb col col (fun x hx => Or.inr hx)]

/-- Claim C3: on the dataset whose distinct album titles are "A|B", "B|C"
and "B", the frequencies are A=1, B=3, C=1, each of the three titles maps
to "B", and every row with a non-null title receives consolidated title
"B" (null rows stay null). -/
theorem c3_example (col : List (Option String))
    (h : distinctTitles col = ["A|B", "B|C", "B"]) :
    albumCounter col "A" = 1 ∧ albumCounter col "B" = 3 ∧ albumCounter col "C" = 1
    ∧ dictGet (albumMapping col) "A|B" = some "B"
    ∧ dictGet (albumMapping col) "B|C" = some "B"
    ∧ dictGet (albumMapping col) "B" = some "B"
    ∧ consolidatedColumn col = col.map (fun o => o.map (fun _ => "B")) := by
  have hc : ∀ s, albumCounter col s = subCounts ["A|B", "B|C", "B"] s := by
    intro s
    rw [albumCounter, h]
  have hm : albumMapping col = titleMapping ["A|B", "B|C", "B"] := by
    rw [albumMapping, h]
  refine ⟨by rw [hc]; decide, by rw [hc]; decide, by rw [hc]; decide,
    by rw [hm]; decide, by rw [hm]; decide, by rw [hm]; decide, ?_⟩
  unfold consolidatedColumn
  refine List.map_congr_left fun o ho => ?_
  cases o with
  | none => rfl
  | some s =>
    have hs : s ∈ distinctTitles col := (mem_distinctTitles col s).mpr ho
    rw [h] at hs
    show dictGet (albumMapping col) s = some "B"
    rw [hm]
    simp only [List.mem_cons, List.not_mem_nil, or_false] at hs
    rcases hs with rfl | rfl | rfl
    · decide
    · decide
    · decide

/-- Witness for C3 at a concrete dataset. -/
theorem c3_example_witness :
    albumCounter [some "A|B", some "B|C", some "B"] "A" = 1
    ∧ albumCounter [some "A|B", some "B|C", some "B"] "B" = 3
    ∧ albumCounter [some "A|B", some "B|C", some "B"] "C" = 1
    ∧ dictGet (albumMapping [some "A|B", some "B|C", some "B"]) "A|B" = some "B"
    ∧ dictGet (albumMapping [some "A|B", some "B|C", some "B"]) "B|C" = some "B"
    ∧ dictGet (albumMapping [some "A|B", some "B|C", some "B"]) "B" = some "B"
    ∧ consolidatedColumn [some "A|B", some "B|C", some "B"]
        = [some "A|B", some "B|C", some "B"].map (fun o => o.map (fun _ => "B")) :=
  c3_example [some "A|B", some "B|C", some "B"] (by decide)

/-- Claim C4: appending rows whose album title already occurs in the
dataset (or is null) changes neither the frequency table nor the mapping. -/
theorem c4_row_duplication (col extra : List (Option String))
    (h : ∀ x ∈ extra, x = none ∨ x ∈ col) (s t : String) :
    albumCounter (col ++ extra) s = albumCounter col s
    ∧ dictGet (albumMapping (col ++ extra)) t = dictGet (albumMapping col) t := by
  have hd := distinctTitles_append_absorb col extra h
  constructor
  · rw [albumCounter, albumCounter, hd]
  · rw [albumMapping, albumMapping, hd]

/-- Witness for C4 at a concrete input. -/
theorem c4_row_duplication_witness :
    albumCounter ([some "X"] ++ [some "X"]) "X" = albumCounter [some "X"] "X"
    ∧ dictGet (albumMapping ([some "X"] ++ [some "X"])) "X"
        = dictGet (albumMapping [some "X"]) "X" :=
  c4_row_duplication [some "X"] [some "X"] (by decide) "X" "X"

/-- Claim C5: every non-null original album title has exactly one entry in
the title mapping; the mapping is determined by the set of distinct album
titles; applied row-wise, a missing title yields a missing consolidated
title and a non-null title yields its mapped canonical value. -/
theorem c5_mapping_invariants (col col' : List (Option String)) (s t : String)
    (i : Nat) (hs : some s ∈ col)
    (hset : ∀ x : String, x ∈ distinctTitles col ↔ x ∈ distinctTitles col') :
    (albumMapping col).countP (fun p => p.1 == s) = 1
    ∧ dictGet (albumMapping col) t = dictGet (albumMapping col') t
    ∧ (col[i]? = some none → (consolidatedColumn col)[i]? = some none)
    ∧ (col[i]? = some (some s) → ∃ r, dictGet (albumMapping col) s = some r
        ∧ (consolidatedColumn col)[i]? = some (some r)) := by
  have hsd : s ∈ distinctTitles col := (mem_distinctTitles col s).mpr hs
  refine ⟨?_, albumMapping_deterministic col col' hset t, ?_, ?_⟩
  · have h1 := countKeys (consolidateTitle (albumCounter col)) (distinctTitles col) s
    have h2 := List.count_eq_one_of_mem (nodup_distinctTitles col) hsd
    exact h1.trans h2
  · intro hi
    unfold consolidatedColumn
    rw [List.getElem?_map, hi]
    rfl
  · intro hi
    refine ⟨consolidateTitle (albumCounter col) s,
      dictGet_albumMapping_mem col s hsd, ?_⟩
    unfold consolidatedColumn
    rw [List.getElem?_map, hi]
    show some (dictGet (albumMapping col) s) = _
    rw [dictGet_albumMapping_mem col s hsd]

/-- Witness for C5 at a concrete input. -/
theorem c5_mapping_invariants_witness :
    (albumMapping [some "A"]).countP (fun p => p.1 == "A") = 1
    ∧ dictGet (albumMapping [some "A"]) "A" = dictGet (albumMapping [some "A"]) "A"
    ∧ ([some "A"][0]? = some none → (consolidatedColumn [some "A"])[0]? = some none)
    ∧ ([some "A"][0]? = some (some "A") → ∃ r,
        dictGet (albumMapping [some "A"]) "A" = some r
        ∧ (consolidatedColumn [some "A"])[0]? = some (some r)) :=
  c5_mapping_invariants [some "A"] [some "A"] "A" "A" 0 (by decide)
    (fun _ => Iff.rfl)

/-- Claim C9 fails on the code: a pipe-free title with surrounding
whitespace maps to its trimmed form, not to itself.  The title " B"
contains no pipe yet is mapped to "B". -/
theorem c9_counterexample :
    ('|' ∉ (" B" : String).data)
    ∧ dictGet (albumMapping [some " B"]) " B" = some "B"
    ∧ (" B" : String) ≠ "B" := by decide

/-- Claim C9, amended: a distinct title with no pipe character maps to its
trimmed self when the trimmed form is non-empty (hence to itself whenever
it carries no surrounding whitespace), and to itself unchanged when it is
entirely whitespace. -/
theorem c9_self_mapping_amended (col : List (Option String)) (t : String)
    (ht : t ∈ distinctTitles col) (hp : '|' ∉ t.data) :
    dictGet (albumMapping col) t
      = some (if pyStrip t = "" then t else pyStrip t) := by
  rw [dictGet_albumMapping_mem col t ht]
  congr 1
  unfold consolidateTitle
  rw [validParts_no_pipe t hp]
  by_cases h : pyStrip t = ""
  · rw [if_pos h, if_pos h]
  · rw [if_neg h, if_neg h]
    rfl

/-- Witness for the amended C9 at a concrete input. -/
theorem c9_self_mapping_amended_witness :
    dictGet (albumMapping [some " B"]) " B"
      = some (if pyStrip " B" = "" then " B" else pyStrip " B") :=
  c9_self_mapping_amended [some " B"] " B" (by decide) (by decide)

/-- Claim C10: the canonical title chosen for a distinct title with at
least one valid sub-title is always one of that title's own sub-titles. -/
theorem c10_canonical_membership (col : List (Option String)) (t : String)
    (ht : t ∈ distinctTitles col) (hv : validParts t ≠ []) :
    ∃ r, dictGet (albumMapping col) t = some r ∧ r ∈ validParts t := by
  obtain ⟨p, ps, hps⟩ := List.exists_cons_of_ne_nil hv
  refine ⟨pyMaxKey (albumCounter col) p ps, ?_, ?_⟩
  · rw [dictGet_albumMapping_mem col t ht]
    unfold consolidateTitle
    rw [hps]
  · rw [hps]
    exact pyMaxKey_mem (albumCounter col) p ps

/-- Witness for C10 at a concrete input. -/
theorem c10_canonical_membership_witness :
    ∃ r, dictGet (albumMapping [some "X|Y"]) "X|Y" = some r
      ∧ r ∈ validParts "X|Y" :=
  c10_canonical_membership [some "X|Y"] "X|Y" (by decide) (by decide)

/-- Claim C6: on a non-empty dataset the Cleaner replaces every cell that
is empty or whitespace-only with the missing marker across all columns,
and leaves every other cell unchanged except for the numeric coercion of
the four count columns. -/
theorem c6_cleaner_normalization (df : Df) (h : dfIsEmpty df = false) :
    cleaner df = df.map (fun p => (p.1,
      if p.1 ∈ countCols
        then coerceCol (p.2.map (fun c => if isBlankCell c then Cell.missing else c))
        else p.2.map (fun c => if isBlankCell c then Cell.missing else c))) := by
  rw [cleaner_eq_cleanedForm df h]
  unfold cleanedForm
  rw [show cleanCell = fun c => if isBlankCell c then Cell.missing else c
    from funext cleanCell_eq_blankForm]

/-- Witness for C6 at a concrete dataset. -/
theorem c6_cleaner_normalization_witness :
    cleaner [("a", [Cell.str " ", Cell.str "x"])]
      = [("a", [Cell.str " ", Cell.str "x"])].map (fun p => (p.1,
        if p.1 ∈ countCols
          then coerceCol (p.2.map (fun c => if isBlankCell c then Cell.missing else c))
          else p.2.map (fun c => if isBlankCell c then Cell.missing else c))) :=
  c6_cleaner_normalization [("a", [Cell.str " ", Cell.str "x"])] (by decide)

/-- Claim C7 fails on the code: when a count column contains a value that
parses to a non-integral number, `astype('Int64', errors='ignore')`
raises and the error is swallowed, so the column stays a float column —
"42" does not become the integer 42 and the column does not store
nullable integers. -/
theorem c7_counterexample :
    coerceCol [Cell.str "42", Cell.str "3.5"]
      = [Cell.rat (mkRat 42 1), Cell.rat (mkRat 7 2)]
    ∧ (coerceCol [Cell.str "42", Cell.str "3.5"]).all isNullIntCell = false := by
  decide

/-- Claim C7, amended: every cell of a designated count column is parsed
as a number and parse failures (such as "1,234") become missing; when
every parsed value in the column is integral the column becomes nullable
integers (so "42" becomes the integer 42); otherwise the column keeps the
parsed values as floats, still with missing for the failures. -/
theorem c7_numeric_coercion_amended (col : List Cell) (i : Nat) (c : Cell)
    (hi : col[i]? = some c) :
    (coerceCol col)[i]? = some (if (col.map toNumericCell).all intOk
        then (toNumericCell c).elim Cell.missing (fun q => Cell.int q.num)
        else (toNumericCell c).elim Cell.missing Cell.rat)
    ∧ (toNumericCell c = none → (coerceCol col)[i]? = some Cell.missing)
    ∧ toNumericCell (Cell.str "42") = some (mkRat 42 1)
    ∧ parseNum "1,234" = none := by
  have hmain : (coerceCol col)[i]? = some (if (col.map toNumericCell).all intOk
      then (toNumericCell c).elim Cell.missing (fun q => Cell.int q.num)
      else (toNumericCell c).elim Cell.missing Cell.rat) := by
    rw [coerceCol_eq]
    split
    next hall =>
      rw [List.getElem?_map, List.getElem?_map, hi]
      rfl
    next hall =>
      rw [List.getElem?_map, List.getElem?_map, hi]
      rfl
  refine ⟨hmain, ?_, by decide, by decide⟩
  intro hn
  rw [hmain, hn]
  split <;> rfl

/-- Witness for the amended C7 at a concrete input. -/
theorem c7_numeric_coercion_amended_witness :
    (coerceCol [Cell.str "5"])[0]?
      = some (if ([Cell.str "5"].map toNumericCell).all intOk
        then (toNumericCell (Cell.str "5")).elim Cell.missing (fun q => Cell.int q.num)
        else (toNumericCell (Cell.str "5")).elim Cell.missing Cell.rat)
    ∧ (toNumericCell (Cell.str "5") = none →
        (coerceCol [Cell.str "5"])[0]? = some Cell.missing)
    ∧ toNumericCell (Cell.str "42") = some (mkRat 42 1)
    ∧ parseNum "1,234" = none :=
  c7_numeric_coercion_amended [Cell.str "5"] 0 (Cell.str "5") (by decide)

/-- Claim C8: the Cleaner is idempotent — running it a second time on its
own output changes nothing. -/
theorem c8_cleaner_idempotent (df : Df) : cleaner (cleaner df) = cleaner df := by
  by_cases h : dfIsEmpty df = true
  · rw [show cleaner df = df from by unfold cleaner; rw [if_pos h],
      show cleaner df = df from by unfold cleaner; rw [if_pos h]]
  · have h' : dfIsEmpty df = false := by
      revert h
      cases dfIsEmpty df <;> simp
    rw [cleaner_eq_cleanedForm df h']
    have h2 : dfIsEmpty (cleanedForm df) = false := by
      rw [dfIsEmpty_cleanedForm]
      exact h'
    rw [cleaner_eq_cleanedForm _ h2, cleanedForm_idem]

end MusicDash
